import Mathlib

/-!
# Verification of the rule-based lecture-note summarizer

A shallow embedding of the summarization engine of this repository:
`summary_rules.py` (sentence segmentation, TF-IDF keyword extraction,
sentence ranking, structured/topic summaries), the merge logic of
`summary_gen.py`, and the chunker of `summary_io_utils.py`.

Python strings are modelled as Lean `String`; floating-point scores are
modelled as real numbers; a Python exception crossing a function boundary is
modelled with `Except`.  Character classes of Python's Unicode-aware
`\w` / `str.isalnum` are modelled over the alphabet the program actually
meets (ASCII plus the Hangul ranges used by the Korean lecture notes).
-/

namespace SummaryRules

/-- Python whitespace for `str.strip` / `\s` (space, tab, CR, LF, VT, FF). -/
def isPyWs (c : Char) : Bool :=
  c == ' ' || c == '\t' || c == '\n' || c == '\r' || c == '\x0b' || c == '\x0c'

/-- Drop matching characters from the end of a character list. -/
def dropEndWhile (p : Char → Bool) (l : List Char) : List Char :=
  (l.reverse.dropWhile p).reverse

/-- Python `str.strip()`: remove leading and trailing whitespace. -/
def pyStrip (s : String) : String :=
  String.mk (dropEndWhile isPyWs (s.data.dropWhile isPyWs))

/-- Hangul character ranges (syllables, Jamo, compatibility Jamo); these are
word characters for Python's Unicode `\w` and `str.isalnum`. -/
def isHangul (c : Char) : Bool :=
  (0xAC00 ≤ c.toNat && c.toNat ≤ 0xD7A3) ||
  (0x1100 ≤ c.toNat && c.toNat ≤ 0x11FF) ||
  (0x3130 ≤ c.toNat && c.toNat ≤ 0x318F)

/-- A `\w` word character (`[A-Za-z0-9_]` plus Hangul), as used by the
vectorizer's `token_pattern=r'\b\w+\b'`. -/
def isWordChar (c : Char) : Bool :=
  c.isAlphanum || c == '_' || isHangul c

/-- Python `str.isdigit()` on the modelled alphabet. -/
def pyIsDigit (s : String) : Bool :=
  !s.data.isEmpty && s.data.all Char.isDigit

/-- Python `str.isalnum()` on the modelled alphabet: non-empty and every
character alphanumeric (letters, digits, Hangul; not `_`, not spaces). -/
def pyIsAlnum (s : String) : Bool :=
  !s.data.isEmpty && s.data.all (fun c => c.isAlphanum || isHangul c)

/-- Python substring test `needle in hay`. -/
def pyIn (needle hay : String) : Bool :=
  hay.data.tails.any (fun suf => needle.data.isPrefixOf suf)

/-- One of `.`, `!`, `?`: a sentence-ending punctuation character. -/
def isSentPunct (c : Char) : Bool :=
  c == '.' || c == '!' || c == '?'

/-- Scanner state for `re.split(r'[.!?]+\s*|\n+', text)`:
`normal` inside a piece, `inPunct` inside a `[.!?]+` run, `inWs` inside the
`\s*` tail of a punctuation match, `inNl` inside a `\n+` run. -/
inductive SplitMode
  | normal
  | inPunct
  | inWs
  | inNl
deriving DecidableEq

/-- Left-to-right scanner realizing `re.split(r'[.!?]+\s*|\n+', text)`:
every leftmost non-overlapping match of the pattern is a boundary and is
discarded; the pieces between boundaries are returned (empty pieces
included, as `re.split` returns them). `acc` holds the current piece
reversed. -/
def splitSentAux : SplitMode → List Char → List Char → List String
  | _, acc, [] => [String.mk acc.reverse]
  | .normal, acc, c :: cs =>
      if isSentPunct c then String.mk acc.reverse :: splitSentAux .inPunct [] cs
      else if c == '\n' then String.mk acc.reverse :: splitSentAux .inNl [] cs
      else splitSentAux .normal (c :: acc) cs
  | .inPunct, acc, c :: cs =>
      if isSentPunct c then splitSentAux .inPunct acc cs
      else if isPyWs c then splitSentAux .inWs acc cs
      else splitSentAux .normal (c :: acc) cs
  | .inWs, acc, c :: cs =>
      if isPyWs c then splitSentAux .inWs acc cs
      else if isSentPunct c then String.mk acc.reverse :: splitSentAux .inPunct [] cs
      else splitSentAux .normal (c :: acc) cs
  | .inNl, acc, c :: cs =>
      if c == '\n' then splitSentAux .inNl acc cs
      else if isSentPunct c then String.mk acc.reverse :: splitSentAux .inPunct [] cs
      else splitSentAux .normal (c :: acc) cs

/-- `SummaryRuleEngine.split_sentences`: split on `[.!?]+\s*|\n+`, strip each
piece, drop pieces that are empty after stripping. -/
def splitSentences (text : String) : List String :=
  ((splitSentAux .normal [] text.data).map pyStrip).filter (fun s => !(s == ""))

/-! ## Tokenization and the TF-IDF vectorizer

Models `sklearn.feature_extraction.text.TfidfVectorizer` as configured in
`SummaryRuleEngine.__init__`: `ngram_range=(1,2)`, `max_features=1000`,
`token_pattern=r'\b\w+\b'`, `lowercase=True`, and the library defaults
`smooth_idf=True`, `sublinear_tf=False`, `norm='l2'`, per the scikit-learn
documentation: `idf(t) = ln((1+N)/(1+df(t))) + 1`, rows L2-normalized,
vocabulary sorted alphabetically, `ValueError` raised when the fitted
vocabulary is empty. -/

/-- Scanner splitting a character list into maximal runs of word characters:
the matches of `\b\w+\b`.  Returns (run starting at the head, later runs). -/
def tokensAux : List Char → List Char × List (List Char)
  | [] => ([], [])
  | c :: rest =>
      let (r, ts) := tokensAux rest
      if isWordChar c then (c :: r, ts)
      else ([], if r.isEmpty then ts else r :: ts)

/-- Python `str.lower()` (ASCII case folding; Hangul has no case). -/
def pyLower (s : String) : String :=
  String.mk (s.data.map Char.toLower)

/-- The word tokens of a document: `re.findall(r'\b\w+\b', doc.lower())`. -/
def wordTokens (doc : String) : List String :=
  let (r, ts) := tokensAux (pyLower doc).data
  ((if r.isEmpty then ts else r :: ts)).map String.mk

/-- Contiguous bigrams, joined by a single space (sklearn `_word_ngrams`). -/
def bigrams : List String → List String
  | a :: b :: rest => (a ++ " " ++ b) :: bigrams (b :: rest)
  | _ => []

/-- All terms of one document for `ngram_range=(1,2)`: unigrams then bigrams. -/
def docNgrams (doc : String) : List String :=
  let ts := wordTokens doc
  ts ++ bigrams ts

/-- Lexicographic comparison of character lists by code point — the order
Python's `sorted` uses on strings. -/
def charListLt : List Char → List Char → Bool
  | [], [] => false
  | [], _ :: _ => true
  | _ :: _, [] => false
  | a :: as, b :: bs =>
      if a.toNat < b.toNat then true
      else if b.toNat < a.toNat then false
      else charListLt as bs

/-- Strict string order by code point. -/
def strLt (a b : String) : Bool :=
  charListLt a.data b.data

/-- Insert into an alphabetically sorted list without duplicating. -/
def insertSorted (s : String) : List String → List String
  | [] => [s]
  | t :: ts =>
      if s == t then t :: ts
      else if strLt s t then s :: t :: ts
      else t :: insertSorted s ts

/-- Deduplicate and sort alphabetically (sklearn sorts its vocabulary). -/
def sortedDedup (l : List String) : List String :=
  l.foldr insertSorted []

/-- Number of occurrences of term `t` among the terms of document `doc`. -/
def termCount (t : String) (doc : String) : ℕ :=
  ((docNgrams doc).filter (fun u => u == t)).length

/-- Total corpus frequency of a term (used by the `max_features` cap). -/
def totalCount (t : String) (docs : List String) : ℕ :=
  (docs.map (fun d => termCount t d)).sum

/-- Descending insertion by score, stable: `p` goes before the first entry
whose score is strictly below `p`'s, so equal scores keep their input order
(the semantics of Python's stable `list.sort(key=..., reverse=True)`). -/
def insertScoreDesc {α β : Type} [LinearOrder β] (p : α × β) :
    List (α × β) → List (α × β)
  | [] => [p]
  | q :: qs => if q.2 ≤ p.2 then p :: q :: qs else q :: insertScoreDesc p qs

/-- Stable descending sort by the second component. -/
def sortScoreDesc {α β : Type} [LinearOrder β] : List (α × β) → List (α × β)
  | [] => []
  | p :: ps => insertScoreDesc p (sortScoreDesc ps)

/-- `max_features=1000`: when the vocabulary exceeds 1000 terms, keep the
1000 most frequent terms of the corpus (ties resolved toward alphabetical
order; scikit-learn leaves the tie order unspecified), alphabetically
re-sorted. -/
def capFeatures (vocabAll : List String) (docs : List String) : List String :=
  sortedDedup
    (((sortScoreDesc (vocabAll.map (fun t => (t, totalCount t docs)))).take 1000).map
      Prod.fst)

/-- The fitted vocabulary: every unigram/bigram of every document, sorted
alphabetically, capped at 1000 terms by frequency. -/
def buildVocabulary (docs : List String) : List String :=
  let vocabAll := sortedDedup ((docs.map docNgrams).flatten)
  if vocabAll.length ≤ 1000 then vocabAll else capFeatures vocabAll docs

/-- Number of documents containing term `t`. -/
def docFreq (t : String) (docs : List String) : ℕ :=
  (docs.filter (fun d => (docNgrams d).contains t)).length

/-- Smoothed inverse document frequency:
`idf(t) = ln((1 + N) / (1 + df(t))) + 1`. -/
noncomputable def idf (t : String) (docs : List String) : ℝ :=
  Real.log ((1 + (docs.length : ℝ)) / (1 + (docFreq t docs : ℝ))) + 1

/-- The raw tf·idf row of one document over the vocabulary. -/
noncomputable def tfidfRow (vocab : List String) (docs : List String)
    (doc : String) : List ℝ :=
  vocab.map (fun t => (termCount t doc : ℝ) * idf t docs)

/-- L2 row normalization; an all-zero row is left unchanged. -/
noncomputable def l2normalize (v : List ℝ) : List ℝ :=
  let n := Real.sqrt ((v.map (fun x => x ^ 2)).sum)
  if n = 0 then v else v.map (fun x => x / n)

/-- The failure `TfidfVectorizer.fit_transform` signals by raising
`ValueError("empty vocabulary ...")`. -/
inductive VectorizerError
  | emptyVocabulary
deriving DecidableEq

/-- `self.vectorizer.fit_transform(sentences)` followed by
`get_feature_names_out()`: the alphabetical vocabulary and the matrix of
L2-normalized tf·idf rows, or the empty-vocabulary error. -/
noncomputable def fitTransform (docs : List String) :
    Except VectorizerError (List String × List (List ℝ)) :=
  let vocab := buildVocabulary docs
  if vocab.isEmpty then .error .emptyVocabulary
  else .ok (vocab, docs.map (fun d => l2normalize (tfidfRow vocab docs d)))

/-- `tfidf_matrix.mean(axis=0)`: per-column mean over the document rows. -/
noncomputable def meanAxis0 (rows : List (List ℝ)) (ncols : ℕ) : List ℝ :=
  (List.range ncols).map
    (fun j => (rows.map (fun r => r.getD j 0)).sum / (rows.length : ℝ))

/-! ## The summary engine (`summary_rules.py`) -/

/-- The Korean stopword set literal of `SummaryRuleEngine.__init__`
(transcribed with its repeated entries; a Python set keeps one copy). -/
def stopwordsKo : List String :=
  ["이", "그", "저", "것", "수", "있", "하", "되", "되다", "있다", "하다", "되다",
   "의", "가", "을", "를", "에", "에서", "로", "으로", "와", "과", "도", "는", "은",
   "이다", "다", "이다", "이다", "이다", "이다", "이다", "이다", "이다", "이다"]

/-- The English stopword set literal of `SummaryRuleEngine.__init__`. -/
def stopwordsEn : List String :=
  ["the", "a", "an", "and", "or", "but", "in", "on", "at", "to", "for", "of",
   "with", "by", "is", "are", "was", "were", "be", "been", "have", "has", "had",
   "do", "does", "did", "will", "would", "could", "should", "may", "might",
   "can", "this", "that", "these", "those", "i", "you", "he", "she", "it",
   "we", "they"]

/-- `self.stopwords.get(lang, set())`: the stopword set of a language tag,
empty for an unknown tag. -/
def stopwords (lang : String) : List String :=
  if lang == "ko" then stopwordsKo
  else if lang == "en" then stopwordsEn
  else []

/-- The keyword filter of `extract_keywords`: length at least 2, not a
stopword of `lang`, not purely numeric, alphanumeric only. -/
def keywordFilter (lang : String) (kw : String) : Bool :=
  decide (2 ≤ kw.length) && !(stopwords lang).contains kw &&
    !pyIsDigit kw && pyIsAlnum kw

/-- `SummaryRuleEngine.extract_keywords`: split into sentences, fit the
TF-IDF vectorizer, average term scores over sentences, sort descending by
score (stable), filter, and keep the first `top_k`; any vectorizer failure
is caught and turned into the empty list. -/
noncomputable def extractKeywords (text lang : String) (topK : ℕ) :
    List (String × ℝ) :=
  let sentences := splitSentences text
  match fitTransform sentences with
  | .error _ => []
  | .ok (vocab, rows) =>
      let scores := meanAxis0 rows vocab.length
      let keywordScores := vocab.zip scores
      ((sortScoreDesc keywordScores).filter
        (fun p => keywordFilter lang p.1)).take topK

/-- `SummaryRuleEngine.extract_important_sentences`: score each sentence by
the sum of its TF-IDF row, sort descending (stable) and keep the first
`num_sentences`; an empty sentence list or a vectorizer failure yields the
empty list. -/
noncomputable def extractImportantSentences (text : String)
    (numSentences : ℕ) : List (String × ℝ) :=
  let sentences := splitSentences text
  if sentences.isEmpty then []
  else
    match fitTransform sentences with
    | .error _ => []
    | .ok (_, rows) =>
        let sentenceScores := rows.map List.sum
        (sortScoreDesc (sentences.zip sentenceScores)).take numSentences

/-- `SummaryRuleEngine.create_keyword_summary`. -/
def createKeywordSummary (keywords : List (String × ℝ))
    (maxKeywords : ℕ) : String :=
  if keywords.isEmpty then "키워드를 추출할 수 없습니다."
  else
    let top := keywords.take maxKeywords
    let part1 := "**핵심 키워드**: " ++
      String.intercalate ", " ((top.take 5).map Prod.fst)
    if 5 < top.length then
      part1 ++ "\n\n" ++ "**주요 키워드**: " ++
        String.intercalate ", " (((top.drop 5).take 10).map Prod.fst)
    else part1

/-- `SummaryRuleEngine.create_sentence_summary`: take the important
sentences (which arrive in descending score order), keep those that occur
verbatim in the re-segmented sentence list, and join them with a single
space.  The code iterates `important_sentences` in score order, so the
output order is score order, not document order. -/
noncomputable def createSentenceSummary (text : String)
    (numSentences : ℕ) : String :=
  let imp := extractImportantSentences text numSentences
  if imp.isEmpty then "중요한 문장을 추출할 수 없습니다."
  else
    let sentences := splitSentences text
    String.intercalate " "
      ((imp.filter (fun p => sentences.contains p.1)).map Prod.fst)

/-- Split on every occurrence of a single character, keeping empty pieces —
Python `str.split(sep)` for a one-character separator.  Returns (piece
starting at the head, later pieces). -/
def splitCharAux (sep : Char) : List Char → List Char × List (List Char)
  | [] => ([], [])
  | c :: rest =>
      let (p, ps) := splitCharAux sep rest
      if c == sep then ([], p :: ps) else (c :: p, ps)

/-- Python `str.split(sep)` with a one-character separator. -/
def pySplitChar (sep : Char) (s : String) : List String :=
  let (p, ps) := splitCharAux sep s.data
  (p :: ps).map String.mk

/-- Whitespace tokenizer — Python's no-argument `str.split()`: maximal
whitespace runs separate tokens, empty tokens are dropped. -/
def splitWsAux : List Char → List Char × List (List Char)
  | [] => ([], [])
  | c :: rest =>
      let (r, ts) := splitWsAux rest
      if isPyWs c then ([], if r.isEmpty then ts else r :: ts)
      else (c :: r, ts)

/-- Python `str.split()` (no argument). -/
def pySplitWs (s : String) : List String :=
  let (r, ts) := splitWsAux s.data
  ((if r.isEmpty then ts else r :: ts)).map String.mk

/-- The statistics block of `create_structured_summary`.  `compression` is
the exact rational value of `len(sentence_summary) / len(text) * 100`; the
Python code only rounds it when formatting the `"%.1f%%"` display string. -/
structure SummaryStats where
  sentenceCount : ℕ
  wordCount : ℕ
  charCount : ℕ
  summarySentenceCount : ℕ
  compression : ℚ
deriving DecidableEq

/-- A Python exception escaping the summary engine. -/
inductive SummaryError
  | divisionByZero
deriving DecidableEq

/-- The record returned by `create_structured_summary`. -/
structure StructuredSummary where
  sentence_summary : String
  keyword_summary : String
  core_concepts : List String
  statistics : SummaryStats

/-- `SummaryRuleEngine.create_structured_summary`: the compression ratio
divides by `len(text)`, so the empty text raises `ZeroDivisionError`. -/
noncomputable def createStructuredSummary (text : String)
    (keywords : List (String × ℝ)) : Except SummaryError StructuredSummary :=
  let ss := createSentenceSummary text 5
  let ks := createKeywordSummary keywords 20
  let core := (keywords.take 10).map Prod.fst
  let sentences := splitSentences text
  let words := pySplitWs text
  if text.length = 0 then .error .divisionByZero
  else
    .ok { sentence_summary := ss
          keyword_summary := ks
          core_concepts := core
          statistics :=
            { sentenceCount := sentences.length
              wordCount := words.length
              charCount := text.length
              summarySentenceCount := (pySplitChar '.' ss).length
              compression := (ss.length : ℚ) / (text.length : ℚ) * 100 } }

/-- The category names and marker words of `create_topic_summary`, in the
order of its `if`/`elif` chain. -/
def topicMarkers : List (String × List String) :=
  [("개념/정의", ["정의", "개념", "의미", "이해"]),
   ("특징/장점", ["특징", "장점", "효과", "성능"]),
   ("응용/사용", ["응용", "사용", "활용", "적용"]),
   ("기술/방법", ["기술", "방법", "알고리즘", "기법"])]

/-- `any(word in keyword.lower() for word in markers)`. -/
def matchesTopic (markers : List String) (kw : String) : Bool :=
  markers.any (fun w => pyIn w (pyLower kw))

/-- The index of the first matching category, 4 (`기타`) when none match. -/
def classifyKeyword (kw : String) : ℕ :=
  match topicMarkers.findIdx? (fun tm => matchesTopic tm.2 kw) with
  | some i => i
  | none => 4

/-- `SummaryRuleEngine.create_topic_summary`: bucket the top-20 keywords by
category, render the non-empty buckets (first 5 keywords each) in category
order.  The `text` argument is unused by the Python code as well. -/
def createTopicSummary (_text : String)
    (keywords : List (String × ℝ)) : String :=
  let top := (keywords.take 20).map Prod.fst
  let names := (topicMarkers.map Prod.fst) ++ ["기타"]
  let buckets := (List.range names.length).map
    (fun i => (names.getD i "", top.filter (fun kw => classifyKeyword kw == i)))
  String.intercalate "\n\n"
    ((buckets.filter (fun b => !b.2.isEmpty)).map
      (fun b => "**" ++ b.1 ++ "**: " ++ String.intercalate ", " (b.2.take 5)))

/-- A summary record — the Python result dict of
`generate_comprehensive_summary` / `merge_summaries`.  An `Option` field is
`none` when the corresponding key is absent from the dict; `keywords` and
`core_concepts` default to the empty list (`summary.get(..., [])`). -/
structure Summary where
  type : String
  content : Option String := none
  sentence_summary : Option String := none
  keyword_summary : Option String := none
  topic_summary : Option String := none
  core_concepts : List String := []
  statistics : Option SummaryStats := none
  keywords : List (String × ℝ) := []

/-- `SummaryRuleEngine.generate_comprehensive_summary`: the `mixed` branch
calls `create_structured_summary`, whose `ZeroDivisionError` propagates. -/
noncomputable def generateComprehensiveSummary (text : String)
    (summaryType : String) : Except SummaryError Summary :=
  let keywords := extractKeywords text "ko" 50
  if summaryType == "keywords" then
    .ok { type := "keywords"
          content := some (createKeywordSummary keywords 20)
          keywords := keywords.take 20
          core_concepts := (keywords.take 15).map Prod.fst }
  else if summaryType == "sentences" then
    .ok { type := "sentences"
          content := some (createSentenceSummary text 5)
          keywords := keywords.take 20
          core_concepts := (keywords.take 15).map Prod.fst }
  else
    match createStructuredSummary text keywords with
    | .error e => .error e
    | .ok st =>
        .ok { type := "mixed"
              sentence_summary := some st.sentence_summary
              keyword_summary := some st.keyword_summary
              topic_summary := some (createTopicSummary text keywords)
              core_concepts := st.core_concepts
              statistics := some st.statistics
              keywords := keywords.take 20 }

/-- The engine object: `__init__` stores the seed into the process RNGs
(`random.seed`, `np.random.seed`) and builds an unfitted vectorizer;
`fittedVocab` is the vectorizer's mutable fitted state. -/
structure SummaryRuleEngine where
  seed : Int
  fittedVocab : Option (List String) := none

/-- `SummaryRuleEngine(seed)`. -/
def mkEngine (seed : Int) : SummaryRuleEngine :=
  { seed := seed }

/-- One run of `extract_keywords` on an engine: the returned list together
with the engine state after the call (`fit_transform` refits the vectorizer
from scratch on success). -/
noncomputable def extractKeywordsRun (e : SummaryRuleEngine)
    (text lang : String) (topK : ℕ) :
    List (String × ℝ) × SummaryRuleEngine :=
  let vocab := buildVocabulary (splitSentences text)
  (extractKeywords text lang topK,
   if vocab.isEmpty then e else { e with fittedVocab := some vocab })

/-! ## The multi-chunk merge (`summary_gen.py`) -/

/-- One insertion into a Python dict built by `{kw: score for kw, score in
all_keywords}`: an existing key keeps its position but takes the new value;
a new key is appended. -/
def dictStep {α : Type} (acc : List (String × α)) (p : String × α) :
    List (String × α) :=
  if acc.any (fun q => q.1 == p.1) then
    acc.map (fun q => if q.1 == p.1 then (q.1, p.2) else q)
  else acc ++ [p]

/-- The items of the Python dict comprehension: keys in first-occurrence
order, each with the value of its last occurrence (last write wins). -/
def dictOfList {α : Type} (l : List (String × α)) : List (String × α) :=
  l.foldl dictStep []

/-- `list({kw: score ...}.items())` re-sorted descending by score — the
dedup-and-sort expression of `merge_summaries` and `process_single_file`. -/
noncomputable def uniqueSortedKeywords (l : List (String × ℝ)) :
    List (String × ℝ) :=
  sortScoreDesc (dictOfList l)

/-- `merge_summaries(summaries, summary_type)`: merge per-chunk summary
records.  The `mixed` branch rebuilds `sentence_summary`, `keyword_summary`,
`core_concepts` and `keywords` from the concatenated chunk data and sets no
`topic_summary` and no `statistics` key at all. -/
noncomputable def mergeSummaries (summaries : List Summary)
    (summaryType : String) : Summary :=
  if summaryType == "keywords" then
    let allKeywords := (summaries.map Summary.keywords).flatten
    let uniqueKeywords := uniqueSortedKeywords allKeywords
    { type := "keywords"
      content := some ("**핵심 키워드**: " ++
        String.intercalate ", " ((uniqueKeywords.take 10).map Prod.fst) ++
        "\n\n**주요 키워드**: " ++
        String.intercalate ", " (((uniqueKeywords.drop 10).take 10).map Prod.fst))
      keywords := uniqueKeywords.take 20 }
  else if summaryType == "sentences" then
    let allSentences := (summaries.filterMap Summary.content).filter
      (fun c => !(c == ""))
    { type := "sentences"
      content := some (String.intercalate " " allSentences)
      keywords := ((summaries.head?).map Summary.keywords).getD [] }
  else
    let allSentences := summaries.filterMap Summary.sentence_summary
    let allKeywords := (summaries.map Summary.keywords).flatten
    let uniqueKeywords := uniqueSortedKeywords allKeywords
    { type := "mixed"
      sentence_summary := some (String.intercalate " " allSentences)
      keyword_summary := some ("**핵심 키워드**: " ++
        String.intercalate ", " ((uniqueKeywords.take 10).map Prod.fst))
      core_concepts := (uniqueKeywords.take 15).map Prod.fst
      keywords := uniqueKeywords.take 20 }

/-! ## The chunker (`summary_io_utils.py`, `FileProcessor.chunk_text`) -/

/-- Scanner state for `re.split(r'[.!?]+\s*', text)` — the pattern of
`FileProcessor._split_into_sentences`, which has no `\n+` alternative. -/
inductive BasicMode
  | normal
  | inPunct
  | inWs
deriving DecidableEq

/-- Left-to-right scanner for `re.split(r'[.!?]+\s*', text)`. -/
def splitBasicAux : BasicMode → List Char → List Char → List String
  | _, acc, [] => [String.mk acc.reverse]
  | .normal, acc, c :: cs =>
      if isSentPunct c then String.mk acc.reverse :: splitBasicAux .inPunct [] cs
      else splitBasicAux .normal (c :: acc) cs
  | .inPunct, acc, c :: cs =>
      if isSentPunct c then splitBasicAux .inPunct acc cs
      else if isPyWs c then splitBasicAux .inWs acc cs
      else splitBasicAux .normal (c :: acc) cs
  | .inWs, acc, c :: cs =>
      if isPyWs c then splitBasicAux .inWs acc cs
      else if isSentPunct c then String.mk acc.reverse :: splitBasicAux .inPunct [] cs
      else splitBasicAux .normal (c :: acc) cs

/-- `FileProcessor._split_into_sentences`: split on `[.!?]+\s*`, strip,
drop empty pieces. -/
def splitIntoSentencesBasic (text : String) : List String :=
  ((splitBasicAux .normal [] text.data).map pyStrip).filter (fun s => !(s == ""))

/-- Python `text.split('\n\n')`: split on each leftmost non-overlapping
occurrence, keeping empty pieces. -/
def splitBlankAux : List Char → List Char × List (List Char)
  | '\n' :: '\n' :: rest =>
      let (p, ps) := splitBlankAux rest
      ([], p :: ps)
  | c :: rest =>
      let (p, ps) := splitBlankAux rest
      (c :: p, ps)
  | [] => ([], [])

/-- The paragraphs of a text: `text.split('\n\n')`. -/
def pySplitBlank (s : String) : List String :=
  let (p, ps) := splitBlankAux s.data
  (p :: ps).map String.mk

/-- The shared accumulation step of `chunk_text`'s two branches: state is
(finished chunks, running buffer); a unit that would push the buffer past
`mx` flushes the stripped buffer when it has reached `mn`, otherwise the
unit is appended behind the separator regardless of the bound. -/
def chunkStep (mx mn : ℕ) (sep : String) (st : List String × String)
    (u : String) : List String × String :=
  let (chunks, cur) := st
  if mx < cur.length + u.length then
    if mn ≤ cur.length then (chunks ++ [pyStrip cur], u)
    else (chunks, cur ++ sep ++ u)
  else (chunks, cur ++ sep ++ u)

/-- One paragraph of `chunk_text`'s loop: an oversized paragraph is replaced
by its sentence units (joined with `" "`), an ordinary paragraph is a single
unit (joined with `"\n\n"`). -/
def chunkParaStep (mx mn : ℕ) (st : List String × String)
    (para : String) : List String × String :=
  if mx < para.length then
    (splitIntoSentencesBasic para).foldl (chunkStep mx mn " ") st
  else chunkStep mx mn "\n\n" st para

/-- `FileProcessor.chunk_text`: a text within `mx` is returned whole;
otherwise paragraphs (split on blank lines) are accumulated, a trailing
non-empty buffer is flushed at the end. -/
def chunkText (mx mn : ℕ) (text : String) : List String :=
  if text.length ≤ mx then [text]
  else
    let st := (pySplitBlank text).foldl (chunkParaStep mx mn) ([], "")
    if !(pyStrip st.2 == "") then st.1 ++ [pyStrip st.2] else st.1

/-- The leaf units `chunk_text` feeds to `chunkStep`: each paragraph within
the bound itself, the sentences of each oversized paragraph. -/
def chunkUnits (mx : ℕ) (text : String) : List String :=
  ((pySplitBlank text).map
    (fun p => if mx < p.length then splitIntoSentencesBasic p else [p])).flatten

/-- The greatest length among a list of strings. -/
def maxLen (l : List String) : ℕ :=
  (l.map String.length).foldr max 0

/-! ## Lemmas about the stable descending sort -/

theorem insertScoreDesc_perm {α β : Type} [LinearOrder β] (p : α × β)
    (l : List (α × β)) : (insertScoreDesc p l).Perm (p :: l) := by
  induction l with
  | nil => simp [insertScoreDesc]
  | cons q qs ih =>
      simp only [insertScoreDesc]
      split
      · exact List.Perm.refl _
      · exact (List.Perm.cons q ih).trans (List.Perm.swap p q qs)

theorem sortScoreDesc_perm {α β : Type} [LinearOrder β]
    (l : List (α × β)) : (sortScoreDesc l).Perm l := by
  induction l with
  | nil => simp [sortScoreDesc]
  | cons p ps ih =>
      exact (insertScoreDesc_perm p (sortScoreDesc ps)).trans (List.Perm.cons p ih)

theorem mem_insertScoreDesc {α β : Type} [LinearOrder β] {x p : α × β}
    {l : List (α × β)} : x ∈ insertScoreDesc p l ↔ x = p ∨ x ∈ l := by
  simpa using (insertScoreDesc_perm p l).mem_iff

theorem pairwise_insertScoreDesc {α β : Type} [LinearOrder β] {p : α × β}
    {l : List (α × β)} (h : l.Pairwise (fun a b => b.2 ≤ a.2)) :
    (insertScoreDesc p l).Pairwise (fun a b => b.2 ≤ a.2) := by
  induction l with
  | nil => simp [insertScoreDesc]
  | cons q qs ih =>
      obtain ⟨hq, hqs⟩ := List.pairwise_cons.mp h
      simp only [insertScoreDesc]
      split
      next hle =>
        refine List.pairwise_cons.mpr ⟨?_, h⟩
        intro b hb
        rcases List.mem_cons.mp hb with rfl | hb
        · exact hle
        · exact le_trans (hq b hb) hle
      next hle =>
        refine List.pairwise_cons.mpr ⟨?_, ih hqs⟩
        intro b hb
        rcases mem_insertScoreDesc.mp hb with rfl | hb
        · exact le_of_lt (not_le.mp hle)
        · exact hq b hb

theorem sortScoreDesc_pairwise {α β : Type} [LinearOrder β]
    (l : List (α × β)) :
    (sortScoreDesc l).Pairwise (fun a b => b.2 ≤ a.2) := by
  induction l with
  | nil => simp [sortScoreDesc]
  | cons p ps ih => exact pairwise_insertScoreDesc ih

theorem insertScoreDesc_filter_eq {α β : Type} [LinearOrder β]
    (p : α × β) (l : List (α × β)) (s : β) :
    (insertScoreDesc p l).filter (fun q => decide (q.2 = s)) =
      if p.2 = s then p :: l.filter (fun q => decide (q.2 = s))
      else l.filter (fun q => decide (q.2 = s)) := by
  induction l with
  | nil =>
      by_cases hp : p.2 = s <;> simp [insertScoreDesc, List.filter_cons, hp]
  | cons q qs ih =>
      simp only [insertScoreDesc]
      by_cases hq : q.2 ≤ p.2
      · rw [if_pos hq]
        by_cases hp : p.2 = s <;> simp [List.filter_cons, hp]
      · rw [if_neg hq]
        by_cases hp : p.2 = s
        · have hqs2 : ¬(q.2 = s) := fun h => hq (le_of_eq (h.trans hp.symm))
          simp [List.filter_cons, hqs2, ih, hp]
        · simp [List.filter_cons, ih, hp]

theorem sortScoreDesc_filter_eq {α β : Type} [LinearOrder β]
    (l : List (α × β)) (s : β) :
    (sortScoreDesc l).filter (fun q => decide (q.2 = s)) =
      l.filter (fun q => decide (q.2 = s)) := by
  induction l with
  | nil => rfl
  | cons p ps ih =>
      rw [sortScoreDesc, insertScoreDesc_filter_eq, ih]
      by_cases hp : p.2 = s <;> simp [List.filter_cons, hp]

/-! ## Lemmas about `pyStrip` -/

theorem length_dropWhile_le {α : Type} (p : α → Bool) (l : List α) :
    (l.dropWhile p).length ≤ l.length := by
  induction l with
  | nil => simp
  | cons c cs ih =>
      rw [List.dropWhile_cons]
      split
      · exact le_trans ih (Nat.le_succ _)
      · exact le_refl _

theorem dropWhile_idem {α : Type} (p : α → Bool) (l : List α) :
    (l.dropWhile p).dropWhile p = l.dropWhile p := by
  induction l with
  | nil => simp
  | cons c cs ih =>
      rw [List.dropWhile_cons]
      split
      next h => exact ih
      next h => rw [List.dropWhile_cons, if_neg h]

/-- A list that `dropWhile` leaves unchanged stays unchanged on any of its
prefixes. -/
theorem dropWhile_eq_self_of_prefix {α : Type} {p : α → Bool}
    {l m : List α} (hm : m <+: l) (hl : l.dropWhile p = l) :
    m.dropWhile p = m := by
  cases m with
  | nil => simp
  | cons c cs =>
      obtain ⟨t, ht⟩ := hm
      have hc : p c = false := by
        by_contra hc
        have hc' : p c = true := by
          cases h : p c
          · exact absurd h hc
          · rfl
        have : l.dropWhile p = (cs ++ t).dropWhile p := by
          rw [← ht, List.cons_append, List.dropWhile_cons, if_pos hc']
        have hlen : l.length ≤ (cs ++ t).length := by
          rw [hl] at this; rw [this]; exact length_dropWhile_le p (cs ++ t)
        rw [← ht] at hlen
        simp at hlen
      rw [List.dropWhile_cons, if_neg (by simp [hc])]

theorem dropEndWhile_isPrefixOf (p : Char → Bool) (l : List Char) :
    dropEndWhile p l <+: l := by
  refine ⟨(l.reverse.takeWhile p).reverse, ?_⟩
  rw [dropEndWhile, ← List.reverse_append, List.takeWhile_append_dropWhile,
    List.reverse_reverse]

theorem dropEndWhile_idem (p : Char → Bool) (l : List Char) :
    dropEndWhile p (dropEndWhile p l) = dropEndWhile p l := by
  simp [dropEndWhile, List.reverse_reverse, dropWhile_idem]

theorem pyStrip_idem (s : String) : pyStrip (pyStrip s) = pyStrip s := by
  unfold pyStrip
  congr 1
  have h1 : (s.data.dropWhile isPyWs).dropWhile isPyWs =
      s.data.dropWhile isPyWs := dropWhile_idem _ _
  have h2 : (dropEndWhile isPyWs (s.data.dropWhile isPyWs)).dropWhile isPyWs =
      dropEndWhile isPyWs (s.data.dropWhile isPyWs) :=
    dropWhile_eq_self_of_prefix (dropEndWhile_isPrefixOf _ _) h1
  rw [h2, dropEndWhile_idem]

theorem pyStrip_length_le (s : String) : (pyStrip s).length ≤ s.length := by
  show (dropEndWhile isPyWs (s.data.dropWhile isPyWs)).length ≤ s.data.length
  calc (dropEndWhile isPyWs (s.data.dropWhile isPyWs)).length
      ≤ (s.data.dropWhile isPyWs).length := by
        rw [dropEndWhile, List.length_reverse]
        calc ((s.data.dropWhile isPyWs).reverse.dropWhile isPyWs).length
            ≤ (s.data.dropWhile isPyWs).reverse.length :=
              length_dropWhile_le _ _
          _ = (s.data.dropWhile isPyWs).length := List.length_reverse _
    _ ≤ s.data.length := length_dropWhile_le _ _

/-! ## C9: the sentence segmenter returns trimmed non-empty pieces -/

/-- C9: `split_sentences` returns only non-empty, already-stripped sentence
strings, and the empty input yields the empty list. -/
theorem c9_split_sentences_clean :
    splitSentences "" = [] ∧
      ∀ (text s : String), s ∈ splitSentences text →
        s ≠ "" ∧ pyStrip s = s := by
  refine ⟨rfl, ?_⟩
  intro text s hs
  unfold splitSentences at hs
  obtain ⟨hmem, hne⟩ := List.mem_filter.mp hs
  obtain ⟨r, _, rfl⟩ := List.mem_map.mp hmem
  refine ⟨?_, pyStrip_idem r⟩
  intro h
  rw [h] at hne
  simp at hne

/-! ## C10 and C2: totality and the degenerate input of keyword extraction -/

/-- A non-empty prefix of the filtered stable sort survives whenever one
element of the input passes the filter. -/
theorem take_filter_sortScoreDesc_ne_nil {α β : Type} [LinearOrder β]
    {l : List (α × β)} {f : α × β → Bool} {k : ℕ} (hk : k ≠ 0)
    (x : α × β) (hx : x ∈ l) (hfx : f x = true) :
    ((sortScoreDesc l).filter f).take k ≠ [] := by
  have h1 : x ∈ (sortScoreDesc l).filter f :=
    List.mem_filter.mpr ⟨(sortScoreDesc_perm l).mem_iff.mpr hx, hfx⟩
  have h2 : (sortScoreDesc l).filter f ≠ [] := List.ne_nil_of_mem h1
  intro h
  rcases List.take_eq_nil_iff.mp h with h' | h'
  · exact hk h'
  · exact h2 h'

/-- C10: `extract_keywords` and `extract_important_sentences` are total at
the module boundary: a vectorizer failure is caught and converted into the
empty list by both. -/
theorem c10_internal_failure_yields_empty :
    ∀ (text lang : String) (topK numSentences : ℕ) (e : VectorizerError),
      fitTransform (splitSentences text) = .error e →
      extractKeywords text lang topK = [] ∧
        extractImportantSentences text numSentences = [] := by
  intro text lang topK n e h
  constructor
  · simp [extractKeywords, h]
  · simp only [extractImportantSentences, h]
    split <;> rfl

/-- Witness for C10 at the empty text, whose sentence list has an empty
vocabulary. -/
theorem c10_internal_failure_yields_empty_witness :
    extractKeywords "" "ko" 50 = [] ∧ extractImportantSentences "" 5 = [] :=
  c10_internal_failure_yields_empty "" "ko" 50 5 .emptyVocabulary rfl

/-- `extract_keywords` on a successfully fitted corpus. -/
theorem extractKeywords_ok {text lang : String} {topK : ℕ}
    {vocab : List String} {rows : List (List ℝ)}
    (h : fitTransform (splitSentences text) = .ok (vocab, rows)) :
    extractKeywords text lang topK =
      ((sortScoreDesc (vocab.zip (meanAxis0 rows vocab.length))).filter
        (fun p => keywordFilter lang p.1)).take topK := by
  simp [extractKeywords, h]

/-- `extract_important_sentences` on a successfully fitted corpus. -/
theorem extractImportantSentences_ok {text : String} {numSentences : ℕ}
    {vocab : List String} {rows : List (List ℝ)}
    (hne : (splitSentences text).isEmpty = false)
    (h : fitTransform (splitSentences text) = .ok (vocab, rows)) :
    extractImportantSentences text numSentences =
      (sortScoreDesc ((splitSentences text).zip (rows.map List.sum))).take
        numSentences := by
  simp [extractImportantSentences, hne, h]

/-- C2 (counterexample): a text with exactly one sentence is not degenerate —
`extract_keywords` returns a non-empty keyword list for it. -/
theorem c2_one_sentence_counterexample :
    splitSentences "hello world" = ["hello world"] ∧
      extractKeywords "hello world" "ko" 50 ≠ [] := by
  refine ⟨by decide, ?_⟩
  have hsplit : splitSentences "hello world" = ["hello world"] := by decide
  have hvocab : buildVocabulary ["hello world"] =
      ["hello", "hello world", "world"] := by decide
  have hfit : fitTransform (splitSentences "hello world") =
      .ok (["hello", "hello world", "world"],
        ["hello world"].map
          (fun d => l2normalize
            (tfidfRow ["hello", "hello world", "world"] ["hello world"] d))) := by
    rw [hsplit]
    simp [fitTransform, hvocab]
  rw [extractKeywords_ok hfit]
  obtain ⟨s0, ss, hscores⟩ : ∃ s0 ss,
      meanAxis0
        (["hello world"].map
          (fun d => l2normalize
            (tfidfRow ["hello", "hello world", "world"] ["hello world"] d)))
        (["hello", "hello world", "world"] : List String).length = s0 :: ss :=
    ⟨_, _, rfl⟩
  rw [hscores]
  exact take_filter_sortScoreDesc_ne_nil (by norm_num) ("hello", s0)
    (by simp) (by show keywordFilter "ko" "hello" = true; decide)

theorem meanAxis0_length (rows : List (List ℝ)) (n : ℕ) :
    (meanAxis0 rows n).length = n := by
  simp [meanAxis0]

/-- When every fitted vocabulary term fails the keyword filter, the
extracted keyword list is empty even though the vectorizer succeeded. -/
theorem extractKeywords_eq_nil_of_all_filtered {text lang : String}
    {topK : ℕ} {vocab : List String} {rows : List (List ℝ)}
    (hfit : fitTransform (splitSentences text) = .ok (vocab, rows))
    (h : ∀ t ∈ vocab, keywordFilter lang t = false) :
    extractKeywords text lang topK = [] := by
  rw [extractKeywords_ok hfit]
  have hfil : (sortScoreDesc (vocab.zip (meanAxis0 rows vocab.length))).filter
      (fun p => keywordFilter lang p.1) = [] := by
    rw [List.filter_eq_nil_iff]
    intro p hp
    have hp' := (sortScoreDesc_perm _).mem_iff.mp hp
    have h1 := (List.of_mem_zip hp').1
    simp [h p.1 h1]
  rw [hfil]
  simp

/-- C2 (amended): `extract_keywords` returns the empty list exactly when
`top_k = 0`, the vectorizer raised (`InsufficientData`, i.e. an empty
fitted vocabulary), or every fitted vocabulary term is removed by the
keyword filter.  An input segmenting into exactly one sentence is not in
itself degenerate: the vectorizer fits a one-document corpus, and keywords
come back whenever some term passes the filter (as for `"hello world"`),
while the one-sentence `"a"` and the two-sentence `"a. b"` (fitted
vocabulary `["a", "b"]`) return `[]` only because every term is filtered
out, not through `InsufficientData`. -/
theorem c2_empty_output_characterization :
    (∀ (text lang : String) (topK : ℕ),
      extractKeywords text lang topK = [] ↔
        topK = 0 ∨
          match fitTransform (splitSentences text) with
          | .error _ => True
          | .ok (vocab, _) => ∀ t ∈ vocab, keywordFilter lang t = false) ∧
      splitSentences "a. b" = ["a", "b"] ∧
      extractKeywords "a. b" "ko" 50 = [] ∧
      splitSentences "a" = ["a"] ∧
      extractKeywords "a" "ko" 50 = [] := by
  refine ⟨?_, by decide, ?_, by decide, ?_⟩
  · intro text lang topK
    cases hfit : fitTransform (splitSentences text) with
    | error e =>
        have h0 : extractKeywords text lang topK = [] := by
          simp [extractKeywords, hfit]
        simp [h0]
    | ok pr =>
        obtain ⟨vocab, rows⟩ := pr
        rw [extractKeywords_ok hfit]
        show _ ↔ topK = 0 ∨ ∀ t ∈ vocab, keywordFilter lang t = false
        constructor
        · intro h
          rcases List.take_eq_nil_iff.mp h with h' | h'
          · exact Or.inl h'
          · right
            intro t ht
            obtain ⟨i, hi, rfl⟩ := List.mem_iff_getElem.mp ht
            have hzlen : (vocab.zip (meanAxis0 rows vocab.length)).length =
                vocab.length := by
              rw [List.length_zip, meanAxis0_length, min_self]
            have hzi : i < (vocab.zip (meanAxis0 rows vocab.length)).length := by
              rw [hzlen]; exact hi
            have hmi : i < (meanAxis0 rows vocab.length).length := by
              rw [meanAxis0_length]; exact hi
            have hmem : (vocab[i], (meanAxis0 rows vocab.length)[i]) ∈
                vocab.zip (meanAxis0 rows vocab.length) := by
              rw [← List.getElem_zip]
              exact List.getElem_mem hzi
            have hall := List.filter_eq_nil_iff.mp h'
            have := hall _ ((sortScoreDesc_perm _).mem_iff.mpr hmem)
            simpa using this
        · intro h
          rcases h with h | h
          · simp [h]
          · have hfil : (sortScoreDesc
                (vocab.zip (meanAxis0 rows vocab.length))).filter
                (fun p => keywordFilter lang p.1) = [] := by
              rw [List.filter_eq_nil_iff]
              intro p hp
              have hp' := (sortScoreDesc_perm _).mem_iff.mp hp
              have h1 := (List.of_mem_zip hp').1
              simp [h p.1 h1]
            rw [hfil]
            simp
  · have hsp : splitSentences "a. b" = ["a", "b"] := by decide
    have hv : buildVocabulary ["a", "b"] = ["a", "b"] := by decide
    have hfit : fitTransform (splitSentences "a. b") =
        .ok (["a", "b"],
          ["a", "b"].map
            (fun d => l2normalize (tfidfRow ["a", "b"] ["a", "b"] d))) := by
      rw [hsp]
      simp [fitTransform, hv]
    exact extractKeywords_eq_nil_of_all_filtered hfit (by decide)
  · have hsp : splitSentences "a" = ["a"] := by decide
    have hv : buildVocabulary ["a"] = ["a"] := by decide
    have hfit : fitTransform (splitSentences "a") =
        .ok (["a"],
          ["a"].map (fun d => l2normalize (tfidfRow ["a"] ["a"] d))) := by
      rw [hsp]
      simp [fitTransform, hv]
    exact extractKeywords_eq_nil_of_all_filtered hfit (by decide)

/-! ## C6: the keyword extraction contract -/

/-- C6: every extracted keyword has length at least 2, is alphanumeric,
is not purely numeric and is no stopword of the active language; the list
has at most `top_k` entries, is sorted non-increasingly by score, and ties
keep the Term Weighter's enumeration order (the score-equal subsequence of
the output is a subsequence of the score-equal entries of the
vocabulary/score enumeration). -/
theorem c6_keyword_extraction_contract :
    ∀ (text lang : String) (topK : ℕ),
      (∀ p ∈ extractKeywords text lang topK,
          2 ≤ p.1.length ∧ pyIsAlnum p.1 = true ∧ pyIsDigit p.1 = false ∧
            p.1 ∉ stopwords lang) ∧
      (extractKeywords text lang topK).length ≤ topK ∧
      (extractKeywords text lang topK).Pairwise (fun p q => q.2 ≤ p.2) ∧
      (∀ (vocab : List String) (rows : List (List ℝ)),
        fitTransform (splitSentences text) = .ok (vocab, rows) →
        ∀ s : ℝ,
          ((extractKeywords text lang topK).filter
              (fun p => decide (p.2 = s))).Sublist
            ((vocab.zip (meanAxis0 rows vocab.length)).filter
              (fun p => decide (p.2 = s)))) := by
  intro text lang topK
  cases hfit : fitTransform (splitSentences text) with
  | error e =>
      have h0 : extractKeywords text lang topK = [] := by
        simp [extractKeywords, hfit]
      rw [h0]
      refine ⟨by simp, by simp, by simp, ?_⟩
      intro vocab rows h s
      exact absurd h (by simp)
  | ok pr =>
      obtain ⟨vocab, rows⟩ := pr
      rw [extractKeywords_ok hfit]
      refine ⟨?_, List.length_take_le _ _,
        List.Pairwise.sublist (List.take_sublist _ _)
          ((sortScoreDesc_pairwise _).filter _), ?_⟩
      · intro p hp
        obtain ⟨hmem, hpred⟩ :=
          List.mem_filter.mp ((List.take_sublist _ _).subset hp)
        simp only [keywordFilter, Bool.and_eq_true, decide_eq_true_eq,
          Bool.not_eq_true'] at hpred
        obtain ⟨⟨⟨h1, h2⟩, h3⟩, h4⟩ := hpred
        refine ⟨h1, h4, h3, ?_⟩
        intro hmem'
        have h5 : (stopwords lang).elem p.1 = true := List.elem_iff.mpr hmem'
        simp only [List.contains] at h2
        rw [h5] at h2
        cases h2
      · intro vocab' rows' h s
        injection h with h'
        injection h' with hv hr
        subst hv
        subst hr
        rw [← sortScoreDesc_filter_eq (vocab.zip (meanAxis0 rows vocab.length)) s]
        exact ((List.take_sublist _ _).filter _).trans
          ((List.filter_sublist _).filter _)

/-! ## C8: determinism of keyword extraction -/

/-- C8: running `extract_keywords` twice on the same engine yields identical
ordered results, and the result does not depend on the seed: no randomness
influences keyword extraction. -/
theorem c8_extract_keywords_deterministic :
    ∀ (seed seed' : Int) (text lang : String) (topK : ℕ),
      (extractKeywordsRun (mkEngine seed) text lang topK).1 =
        (extractKeywordsRun
          (extractKeywordsRun (mkEngine seed) text lang topK).2
          text lang topK).1 ∧
      (extractKeywordsRun (mkEngine seed) text lang topK).1 =
        (extractKeywordsRun (mkEngine seed') text lang topK).1 := by
  intro _ _ _ _ _
  exact ⟨rfl, rfl⟩

/-! ## Lemmas about the merge dictionary (`{kw: score for ...}`) -/

theorem dictStep_map_fst {α : Type} (acc : List (String × α))
    (p : String × α) :
    (dictStep acc p).map Prod.fst =
      if acc.any (fun q => q.1 == p.1) then acc.map Prod.fst
      else acc.map Prod.fst ++ [p.1] := by
  unfold dictStep
  split
  next h =>
      rw [List.map_map]
      refine List.map_congr_left ?_
      intro a _
      simp only [Function.comp_apply]
      split <;> rfl
  next h => simp

theorem dictStep_keys_nodup {α : Type} {acc : List (String × α)}
    (p : String × α) (h : (acc.map Prod.fst).Nodup) :
    ((dictStep acc p).map Prod.fst).Nodup := by
  rw [dictStep_map_fst]
  split
  · exact h
  next hany =>
      simp only [List.any_eq_true, Bool.not_eq_true, not_exists] at hany
      rw [List.nodup_append]
      refine ⟨h, List.nodup_singleton _, ?_⟩
      intro a ha hb
      obtain ⟨q, hq, rfl⟩ := List.mem_map.mp ha
      have := hany q
      simp only [List.mem_singleton] at hb
      rw [hb] at this
      simp [hq] at this

theorem foldl_dictStep_keys_nodup {α : Type} :
    ∀ (l : List (String × α)) (acc : List (String × α)),
      (acc.map Prod.fst).Nodup →
      ((l.foldl dictStep acc).map Prod.fst).Nodup := by
  intro l
  induction l with
  | nil => intro acc h; exact h
  | cons x t ih => intro acc h; exact ih _ (dictStep_keys_nodup x h)

theorem dictOfList_keys_nodup {α : Type} (l : List (String × α)) :
    ((dictOfList l).map Prod.fst).Nodup :=
  foldl_dictStep_keys_nodup l [] (by simp)

theorem mem_dictStep {α : Type} {acc : List (String × α)}
    {x p : String × α} (h : x ∈ dictStep acc p) :
    (x.1 = p.1 ∧ x.2 = p.2) ∨ (x ∈ acc ∧ x.1 ≠ p.1) := by
  unfold dictStep at h
  split at h
  next hany =>
      obtain ⟨q, hq, hx⟩ := List.mem_map.mp h
      by_cases hb : q.1 == p.1
      · left
        rw [if_pos hb] at hx
        rw [← hx]
        exact ⟨by simpa using hb, rfl⟩
      · right
        rw [if_neg hb] at hx
        rw [← hx]
        exact ⟨hq, by simpa using hb⟩
  next hany =>
      simp only [List.any_eq_true, not_exists] at hany
      rcases List.mem_append.mp h with hx | hx
      · right
        refine ⟨hx, ?_⟩
        have := hany x
        simp [hx] at this
        simpa using this
      · left
        simp only [List.mem_singleton] at hx
        rw [hx]
        exact ⟨rfl, rfl⟩

theorem lookup_append_left {α β : Type} [BEq α] {a : α}
    {l₁ l₂ : List (α × β)} {b : β} (h : List.lookup a l₁ = some b) :
    List.lookup a (l₁ ++ l₂) = some b := by
  induction l₁ with
  | nil => simp [List.lookup] at h
  | cons x t ih =>
      rw [List.cons_append]
      cases x with
      | mk k v =>
          rw [List.lookup_cons] at h ⊢
          cases hk : a == k with
          | true => rw [hk] at h; simpa using h
          | false => rw [hk] at h; exact ih h

theorem lookup_append_right {α β : Type} [BEq α] {a : α}
    {l₁ l₂ : List (α × β)} (h : List.lookup a l₁ = none) :
    List.lookup a (l₁ ++ l₂) = List.lookup a l₂ := by
  induction l₁ with
  | nil => simp
  | cons x t ih =>
      rw [List.cons_append]
      cases x with
      | mk k v =>
          rw [List.lookup_cons] at h ⊢
          cases hk : a == k with
          | true => rw [hk] at h; simp at h
          | false => rw [hk] at h; exact ih h

theorem lookup_eq_none_of_not_mem_keys {α β : Type} [BEq α] [LawfulBEq α]
    {a : α} {l : List (α × β)} (h : a ∉ l.map Prod.fst) :
    List.lookup a l = none := by
  induction l with
  | nil => rfl
  | cons x t ih =>
      cases x with
      | mk k v =>
          rw [List.lookup_cons]
          simp only [List.map_cons, List.mem_cons, not_or] at h
          cases hk : a == k with
          | true => exact absurd (by simpa using hk) h.1
          | false => exact ih h.2

theorem foldl_dictStep_lookup {α : Type} :
    ∀ (l : List (String × α)) (acc : List (String × α)),
      ∀ p ∈ l.foldl dictStep acc,
        List.lookup p.1 l.reverse = some p.2 ∨
          (p.1 ∉ l.map Prod.fst ∧ p ∈ acc) := by
  intro l
  induction l with
  | nil =>
      intro acc p hp
      right
      exact ⟨by simp, hp⟩
  | cons x t ih =>
      intro acc p hp
      rw [List.foldl_cons] at hp
      rcases ih (dictStep acc x) p hp with h | ⟨hnk, hpacc⟩
      · left
        rw [List.reverse_cons]
        exact lookup_append_left h
      · have hrevnone : List.lookup p.1 t.reverse = none := by
          refine lookup_eq_none_of_not_mem_keys ?_
          rw [List.map_reverse, List.mem_reverse]
          exact hnk
        rcases mem_dictStep hpacc with ⟨h1, h2⟩ | ⟨hpacc', hne⟩
        · left
          rw [List.reverse_cons, lookup_append_right hrevnone,
            List.lookup_cons]
          have : (p.1 == x.1) = true := by simpa using h1
          rw [this]
          simp [h2]
        · right
          refine ⟨?_, hpacc'⟩
          simp only [List.map_cons, List.mem_cons, not_or]
          exact ⟨hne, hnk⟩

theorem dictOfList_lookup {α : Type} (l : List (String × α)) :
    ∀ p ∈ dictOfList l, List.lookup p.1 l.reverse = some p.2 := by
  intro p hp
  rcases foldl_dictStep_lookup l [] p hp with h | ⟨_, h⟩
  · exact h
  · simp at h

/-- Every prefix of `uniqueSortedKeywords all` has pairwise-distinct terms,
carries for each term the score of its last occurrence in `all`, and is
sorted non-increasingly by score. -/
theorem uniqueSortedKeywords_spec (all : List (String × ℝ)) (k : ℕ) :
    ((((uniqueSortedKeywords all).take k).map Prod.fst).Nodup) ∧
    (∀ p ∈ (uniqueSortedKeywords all).take k,
      List.lookup p.1 all.reverse = some p.2) ∧
    ((uniqueSortedKeywords all).take k).Pairwise (fun p q => q.2 ≤ p.2) := by
  unfold uniqueSortedKeywords
  refine ⟨?_, ?_, ?_⟩
  · have hperm : ((sortScoreDesc (dictOfList all)).map Prod.fst).Perm
        ((dictOfList all).map Prod.fst) := (sortScoreDesc_perm _).map _
    have hnd : ((sortScoreDesc (dictOfList all)).map Prod.fst).Nodup :=
      hperm.nodup_iff.mpr (dictOfList_keys_nodup all)
    exact List.Nodup.sublist ((List.take_sublist _ _).map _) hnd
  · intro p hp
    exact dictOfList_lookup all p
      ((sortScoreDesc_perm _).mem_iff.mp ((List.take_sublist _ _).subset hp))
  · exact List.Pairwise.sublist (List.take_sublist _ _)
      (sortScoreDesc_pairwise _)

/-! ## C7: the merged keyword list -/

/-- C7: for any per-chunk summaries, the keyword list of the merged record
(`keywords` and `mixed` branches both) contains each term at most once, each
kept score is the score of the term's last occurrence in concatenated chunk
order, and the list is sorted non-increasingly by score. -/
theorem c7_merge_dedup_last_write_wins :
    ∀ (summaries : List Summary),
      (((mergeSummaries summaries "keywords").keywords.map Prod.fst).Nodup ∧
        (∀ p ∈ (mergeSummaries summaries "keywords").keywords,
          List.lookup p.1
            ((summaries.map Summary.keywords).flatten).reverse = some p.2) ∧
        (mergeSummaries summaries "keywords").keywords.Pairwise
          (fun p q => q.2 ≤ p.2)) ∧
      (((mergeSummaries summaries "mixed").keywords.map Prod.fst).Nodup ∧
        (∀ p ∈ (mergeSummaries summaries "mixed").keywords,
          List.lookup p.1
            ((summaries.map Summary.keywords).flatten).reverse = some p.2) ∧
        (mergeSummaries summaries "mixed").keywords.Pairwise
          (fun p q => q.2 ≤ p.2)) := by
  intro summaries
  have hk : (mergeSummaries summaries "keywords").keywords =
      (uniqueSortedKeywords ((summaries.map Summary.keywords).flatten)).take 20 := by
    simp [mergeSummaries]
  have hm : (mergeSummaries summaries "mixed").keywords =
      (uniqueSortedKeywords ((summaries.map Summary.keywords).flatten)).take 20 := by
    simp [mergeSummaries]
  rw [hk, hm]
  exact ⟨uniqueSortedKeywords_spec _ 20, uniqueSortedKeywords_spec _ 20⟩

/-! ## C3: the merged mixed record drops topic and statistics -/

/-- A first mixed chunk summary with topic and statistics fields. -/
def mergeExampleFirst : Summary :=
  { type := "mixed"
    sentence_summary := some "alpha beta."
    keyword_summary := some "**핵심 키워드**: alpha"
    topic_summary := some "**기타**: alpha"
    core_concepts := ["alpha"]
    statistics := some ⟨2, 4, 30, 2, 40⟩
    keywords := [] }

/-- A second mixed chunk summary. -/
def mergeExampleSecond : Summary :=
  { type := "mixed"
    sentence_summary := some "gamma delta."
    keyword_summary := some "**핵심 키워드**: gamma"
    topic_summary := some "**기타**: gamma"
    core_concepts := ["gamma"]
    statistics := some ⟨3, 5, 40, 2, 35⟩
    keywords := [] }

/-- C3 (counterexample): merging two mixed summaries does not carry the
first chunk's `topic_summary` and `statistics` — the merged record has no
such fields at all. -/
theorem c3_first_chunk_fields_not_carried :
    (mergeSummaries [mergeExampleFirst, mergeExampleSecond] "mixed").topic_summary
        = none ∧
      mergeExampleFirst.topic_summary = some "**기타**: alpha" ∧
      (mergeSummaries [mergeExampleFirst, mergeExampleSecond] "mixed").statistics
        = none ∧
      mergeExampleFirst.statistics = some ⟨2, 4, 30, 2, 40⟩ := by
  refine ⟨?_, rfl, ?_, rfl⟩ <;> simp [mergeSummaries]

/-- C3 (amended): the merged mixed record carries no `topic_summary` and no
`statistics` from any chunk (both fields are dropped), and all the fields it
does carry are recomputed from the merged data alone: two summary lists with
the same concatenated keyword lists and the same sequence of chunk sentence
summaries merge to the same record. -/
theorem c3_merge_mixed_drops_and_recomputes :
    ∀ (summaries : List Summary),
      (mergeSummaries summaries "mixed").topic_summary = none ∧
      (mergeSummaries summaries "mixed").statistics = none ∧
      (∀ (summaries' : List Summary),
        (summaries.map Summary.keywords).flatten =
          (summaries'.map Summary.keywords).flatten →
        summaries.filterMap Summary.sentence_summary =
          summaries'.filterMap Summary.sentence_summary →
        mergeSummaries summaries "mixed" = mergeSummaries summaries' "mixed") := by
  intro s
  refine ⟨by simp [mergeSummaries], by simp [mergeSummaries], ?_⟩
  intro s' h1 h2
  simp [mergeSummaries, h1, h2]

/-! ## C4: the empty input -/

/-- `create_structured_summary` on the empty text always raises
`ZeroDivisionError` in the compression-ratio computation. -/
theorem createStructuredSummary_empty_text (keywords : List (String × ℝ)) :
    createStructuredSummary "" keywords = .error .divisionByZero := rfl

/-- C4 (counterexample): the mixed stage on the empty text does let an
exception escape — `generate_comprehensive_summary('' , 'mixed')` raises
`ZeroDivisionError`. -/
theorem c4_mixed_empty_input_raises :
    generateComprehensiveSummary "" "mixed" = .error .divisionByZero := by
  have h : ("mixed" == "keywords") = false := by decide
  have h' : ("mixed" == "sentences") = false := by decide
  simp [generateComprehensiveSummary, h, h',
    createStructuredSummary_empty_text]

/-- C4 (amended): on the empty input, segmentation, keyword extraction,
sentence extraction, the sentence summary, the keyword summary and the
topic summary all return their documented empty or fallback values, but the
structured (mixed) summary raises `ZeroDivisionError` computing the
compression ratio, which escapes the stage. -/
theorem c4_empty_input_stage_values :
    splitSentences "" = [] ∧
      (∀ (lang : String) (topK : ℕ), extractKeywords "" lang topK = []) ∧
      (∀ n : ℕ, extractImportantSentences "" n = []) ∧
      (∀ n : ℕ, createSentenceSummary "" n = "중요한 문장을 추출할 수 없습니다.") ∧
      createKeywordSummary [] 20 = "키워드를 추출할 수 없습니다." ∧
      createTopicSummary "" [] = "" ∧
      (∀ keywords : List (String × ℝ),
        createStructuredSummary "" keywords = .error .divisionByZero) := by
  refine ⟨rfl, ?_, ?_, ?_, rfl, rfl, createStructuredSummary_empty_text⟩
  · intro lang topK
    have hfit : fitTransform (splitSentences "") = .error .emptyVocabulary := rfl
    simp [extractKeywords, hfit]
  · intro n
    rfl
  · intro n
    rfl

/-! ## C5: chunk sizes -/

theorem le_maxLen_of_mem {l : List String} {u : String} (h : u ∈ l) :
    u.length ≤ maxLen l := by
  induction l with
  | nil => cases h
  | cons x t ih =>
      rcases List.mem_cons.mp h with rfl | h
      · exact le_max_left _ _
      · exact le_trans (ih h) (le_max_right _ _)

theorem chunkStep_bound {mx mn U : ℕ} {sep : String} (hsep : sep.length ≤ 2)
    {st : List String × String} {u : String} (hu : u.length ≤ U)
    (hch : ∀ c ∈ st.1, c.length ≤ max mx (mn + U) + 2)
    (hcur : st.2.length ≤ max mx (mn + U) + 2) :
    (∀ c ∈ (chunkStep mx mn sep st u).1, c.length ≤ max mx (mn + U) + 2) ∧
      (chunkStep mx mn sep st u).2.length ≤ max mx (mn + U) + 2 := by
  obtain ⟨chunks, cur⟩ := st
  unfold chunkStep
  dsimp only
  by_cases h1 : mx < cur.length + u.length
  · rw [if_pos h1]
    by_cases h2 : mn ≤ cur.length
    · rw [if_pos h2]
      refine ⟨?_, ?_⟩
      · intro c hc
        rcases List.mem_append.mp hc with hc | hc
        · exact hch c hc
        · simp only [List.mem_singleton] at hc
          subst hc
          exact le_trans (pyStrip_length_le _) hcur
      · have hm : mn + U ≤ max mx (mn + U) := le_max_right _ _
        simpa using le_trans hu (by omega)
    · rw [if_neg h2]
      refine ⟨hch, ?_⟩
      have h2' : cur.length < mn := Nat.lt_of_not_le h2
      have hm : mn + U ≤ max mx (mn + U) := le_max_right _ _
      show ((cur ++ sep) ++ u).length ≤ _
      rw [String.length_append, String.length_append]
      omega
  · rw [if_neg h1]
    refine ⟨hch, ?_⟩
    have h1' : cur.length + u.length ≤ mx := Nat.le_of_not_lt h1
    have hm : mx ≤ max mx (mn + U) := le_max_left _ _
    show ((cur ++ sep) ++ u).length ≤ _
    rw [String.length_append, String.length_append]
    omega

theorem foldl_chunkStep_bound {mx mn U : ℕ} {sep : String}
    (hsep : sep.length ≤ 2) :
    ∀ (us : List String) (st : List String × String),
      (∀ u ∈ us, u.length ≤ U) →
      (∀ c ∈ st.1, c.length ≤ max mx (mn + U) + 2) →
      st.2.length ≤ max mx (mn + U) + 2 →
      (∀ c ∈ (us.foldl (chunkStep mx mn sep) st).1,
          c.length ≤ max mx (mn + U) + 2) ∧
        (us.foldl (chunkStep mx mn sep) st).2.length ≤ max mx (mn + U) + 2 := by
  intro us
  induction us with
  | nil => intro st _ h1 h2; exact ⟨h1, h2⟩
  | cons u ts ih =>
      intro st hu h1 h2
      rw [List.foldl_cons]
      have hstep := chunkStep_bound hsep (hu u (by simp)) h1 h2
      exact ih _ (fun v hv => hu v (by simp [hv])) hstep.1 hstep.2

theorem chunkParaStep_bound {mx mn U : ℕ} {st : List String × String}
    {para : String}
    (hpara : ∀ u ∈ (if mx < para.length then splitIntoSentencesBasic para
        else [para]), u.length ≤ U)
    (h1 : ∀ c ∈ st.1, c.length ≤ max mx (mn + U) + 2)
    (h2 : st.2.length ≤ max mx (mn + U) + 2) :
    (∀ c ∈ (chunkParaStep mx mn st para).1, c.length ≤ max mx (mn + U) + 2) ∧
      (chunkParaStep mx mn st para).2.length ≤ max mx (mn + U) + 2 := by
  unfold chunkParaStep
  by_cases h : mx < para.length
  · rw [if_pos h]
    rw [if_pos h] at hpara
    exact foldl_chunkStep_bound (by decide) _ st hpara h1 h2
  · rw [if_neg h]
    rw [if_neg h] at hpara
    exact chunkStep_bound (by decide) (hpara para (by simp)) h1 h2

theorem foldl_chunkParaStep_bound {mx mn U : ℕ} :
    ∀ (ps : List String) (st : List String × String),
      (∀ p ∈ ps, ∀ u ∈ (if mx < p.length then splitIntoSentencesBasic p
          else [p]), u.length ≤ U) →
      (∀ c ∈ st.1, c.length ≤ max mx (mn + U) + 2) →
      st.2.length ≤ max mx (mn + U) + 2 →
      (∀ c ∈ (ps.foldl (chunkParaStep mx mn) st).1,
          c.length ≤ max mx (mn + U) + 2) ∧
        (ps.foldl (chunkParaStep mx mn) st).2.length ≤ max mx (mn + U) + 2 := by
  intro ps
  induction ps with
  | nil => intro st _ h1 h2; exact ⟨h1, h2⟩
  | cons p ts ih =>
      intro st hp h1 h2
      rw [List.foldl_cons]
      have hstep := chunkParaStep_bound (hp p (by simp)) h1 h2
      exact ih _ (fun q hq => hp q (by simp [hq])) hstep.1 hstep.2

/-- C5 (amended): every chunk's length is bounded by
`max(max_chunk_size, min_chunk_size + L) + 2`, where `L` is the longest
leaf unit (paragraph within the bound, or sentence of an oversized
paragraph); chunks exceeding `max_chunk_size` arise whenever the running
buffer is still below `min_chunk_size`, and need not be single leaf units. -/
theorem c5_chunk_length_bound :
    ∀ (mx mn : ℕ) (text : String) (c : String),
      c ∈ chunkText mx mn text →
      c.length ≤ max mx (mn + maxLen (chunkUnits mx text)) + 2 := by
  intro mx mn text c hc
  unfold chunkText at hc
  split at hc
  next h =>
      simp only [List.mem_singleton] at hc
      subst hc
      exact le_trans h (le_trans (le_max_left _ _) (Nat.le_add_right _ 2))
  next h =>
      have hunits : ∀ p ∈ pySplitBlank text,
          ∀ u ∈ (if mx < p.length then splitIntoSentencesBasic p else [p]),
            u.length ≤ maxLen (chunkUnits mx text) := by
        intro p hp u hu
        refine le_maxLen_of_mem ?_
        rw [chunkUnits, List.mem_flatten]
        exact ⟨_, List.mem_map.mpr ⟨p, hp, rfl⟩, hu⟩
      have hfold := @foldl_chunkParaStep_bound mx mn
        (maxLen (chunkUnits mx text)) (pySplitBlank text) ([], "")
        hunits (by simp) (by simp)
      dsimp only at hc
      split at hc
      · rcases List.mem_append.mp hc with h' | h'
        · exact hfold.1 c h'
        · simp only [List.mem_singleton] at h'
          subst h'
          exact le_trans (pyStrip_length_le _) hfold.2
      · exact hfold.1 c hc

/-- Witness for the C5 bound at a small concrete input. -/
theorem c5_chunk_length_bound_witness :
    "aa" ∈ chunkText 10 5 "aa" ∧
      ("aa" : String).length ≤ max 10 (5 + maxLen (chunkUnits 10 "aa")) + 2 :=
  ⟨by decide, c5_chunk_length_bound 10 5 "aa" "aa" (by decide)⟩

/-- C5 (counterexample): with `max_chunk_size = 10` and
`min_chunk_size = 5`, a four-paragraph text yields two chunks that both
exceed the maximum and are both concatenations of two paragraphs — not a
single oversized indivisible leaf unit. -/
theorem c5_multiple_oversized_chunks :
    chunkText 10 5 "aa\n\nbbbbbbbbbb\n\ncc\n\ndddddddddd" =
        ["aa\n\nbbbbbbbbbb", "cc\n\ndddddddddd"] ∧
      ((chunkText 10 5 "aa\n\nbbbbbbbbbb\n\ncc\n\ndddddddddd").filter
        (fun c => decide (10 < c.length))).length = 2 := by
  constructor <;> decide

/-! ## C1: the order of the sentence summary -/

theorem sum_map_div (l : List ℝ) (w : ℝ) :
    (l.map (fun x => x / w)).sum = l.sum / w := by
  induction l with
  | nil => simp
  | cons x t ih => simp [ih, add_div]

/-- When the squared norm of a row is `w ^ 2` with `w > 0`, L2
normalization divides the row sum by `w`. -/
theorem l2normalize_sum_eq (l : List ℝ) (w : ℝ) (hw : 0 < w)
    (hsq : (l.map (fun x => x ^ 2)).sum = w ^ 2) :
    (l2normalize l).sum = l.sum / w := by
  unfold l2normalize
  rw [hsq, Real.sqrt_sq hw.le, if_neg hw.ne', sum_map_div]

/-- A row whose terms all carry the same positive idf `w`, seen through
term counts. -/
theorem tfidfRow_uniform (vocab docs : List String) (d : String) (w : ℝ)
    (h : ∀ t ∈ vocab, idf t docs = w) :
    tfidfRow vocab docs d =
      (vocab.map (fun t => termCount t d)).map (fun n : ℕ => (n : ℝ) * w) := by
  rw [tfidfRow, List.map_map]
  exact List.map_congr_left (fun t ht => by simp [h t ht])

/-- C1: on `"a. b c. d"` with `num_sentences = 2` the produced summary is
`"b c a"` — the selected sentences in descending score order — although the
document order of the selected sentences in the segmented list is
`["a", "b c"]`. -/
theorem c1_sentence_summary_in_score_order :
    createSentenceSummary "a. b c. d" 2 = "b c a" ∧
      splitSentences "a. b c. d" = ["a", "b c", "d"] := by
  have hsplit : splitSentences "a. b c. d" = ["a", "b c", "d"] := by decide
  refine ⟨?_, hsplit⟩
  have hlog : (0 : ℝ) < Real.log 2 := Real.log_pos (by norm_num)
  set v : ℝ := Real.log 2 + 1 with hvdef
  have hv : 0 < v := by rw [hvdef]; linarith
  have hvocab : buildVocabulary ["a", "b c", "d"] =
      ["a", "b", "b c", "c", "d"] := by decide
  have hdf : ∀ t ∈ (["a", "b", "b c", "c", "d"] : List String),
      docFreq t ["a", "b c", "d"] = 1 := by decide
  have hidf : ∀ t ∈ (["a", "b", "b c", "c", "d"] : List String),
      idf t ["a", "b c", "d"] = v := by
    intro t ht
    rw [idf, hdf t ht, hvdef]
    norm_num
  have hfit : fitTransform (splitSentences "a. b c. d") =
      .ok (["a", "b", "b c", "c", "d"],
        ["a", "b c", "d"].map
          (fun d => l2normalize
            (tfidfRow ["a", "b", "b c", "c", "d"] ["a", "b c", "d"] d))) := by
    rw [hsplit]
    simp [fitTransform, hvocab]
  have hcnt1 : (["a", "b", "b c", "c", "d"] : List String).map
      (fun t => termCount t "a") = [1, 0, 0, 0, 0] := by decide
  have hcnt2 : (["a", "b", "b c", "c", "d"] : List String).map
      (fun t => termCount t "b c") = [0, 1, 1, 1, 0] := by decide
  have hcnt3 : (["a", "b", "b c", "c", "d"] : List String).map
      (fun t => termCount t "d") = [0, 0, 0, 0, 1] := by decide
  have hr1 : tfidfRow ["a", "b", "b c", "c", "d"] ["a", "b c", "d"] "a" =
      [v, 0, 0, 0, 0] := by
    rw [tfidfRow_uniform _ _ _ v hidf, hcnt1]
    norm_num
  have hr2 : tfidfRow ["a", "b", "b c", "c", "d"] ["a", "b c", "d"] "b c" =
      [0, v, v, v, 0] := by
    rw [tfidfRow_uniform _ _ _ v hidf, hcnt2]
    norm_num
  have hr3 : tfidfRow ["a", "b", "b c", "c", "d"] ["a", "b c", "d"] "d" =
      [0, 0, 0, 0, v] := by
    rw [tfidfRow_uniform _ _ _ v hidf, hcnt3]
    norm_num
  have hs1 : (l2normalize [v, 0, 0, 0, 0]).sum = 1 := by
    rw [l2normalize_sum_eq _ v hv (by norm_num)]
    simp [div_self hv.ne']
  have hs3 : (l2normalize [0, 0, 0, 0, v]).sum = 1 := by
    rw [l2normalize_sum_eq _ v hv (by norm_num)]
    simp [div_self hv.ne']
  have hsqrt3pos : (0 : ℝ) < Real.sqrt 3 := Real.sqrt_pos.mpr (by norm_num)
  have hs2 : (l2normalize [0, v, v, v, 0]).sum = Real.sqrt 3 := by
    rw [l2normalize_sum_eq _ (Real.sqrt 3 * v) (by positivity) ?hsq]
    case hsq =>
      have h3 : Real.sqrt 3 ^ 2 = 3 := Real.sq_sqrt (by norm_num)
      simp only [List.map_cons, List.map_nil, List.sum_cons, List.sum_nil]
      rw [mul_pow, h3]
      ring
    rw [div_eq_iff (by positivity)]
    simp only [List.sum_cons, List.sum_nil]
    have h3 : Real.sqrt 3 * Real.sqrt 3 = 3 := Real.mul_self_sqrt (by norm_num)
    nlinarith [h3]
  have hsum : (["a", "b c", "d"].map
      (fun d => l2normalize
        (tfidfRow ["a", "b", "b c", "c", "d"] ["a", "b c", "d"] d))).map
        List.sum = [1, Real.sqrt 3, 1] := by
    simp only [List.map_cons, List.map_nil, hr1, hr2, hr3]
    rw [hs1, hs2, hs3]
  have hne : (splitSentences "a. b c. d").isEmpty = false := by
    rw [hsplit]; rfl
  have hle1 : (1 : ℝ) ≤ Real.sqrt 3 := by
    rw [show (1 : ℝ) = Real.sqrt 1 from Real.sqrt_one.symm]
    exact Real.sqrt_le_sqrt (by norm_num)
  have hnle : ¬(Real.sqrt 3 ≤ 1) := by
    rw [not_le]
    rw [show (1 : ℝ) = Real.sqrt 1 from Real.sqrt_one.symm]
    exact Real.sqrt_lt_sqrt (by norm_num) (by norm_num)
  have himp : extractImportantSentences "a. b c. d" 2 =
      [("b c", Real.sqrt 3), ("a", 1)] := by
    rw [extractImportantSentences_ok hne hfit, hsplit, hsum]
    simp [sortScoreDesc, insertScoreDesc, hle1, hnle]
  rw [createSentenceSummary, himp, hsplit]
  norm_num
  decide

end SummaryRules
